import Mathlib

/-!
Verification of the two Gen-AI text pipelines (review pipeline in
`gen_ai_task_2.py`, email pipeline in `geni_ai_task_1.py`).

Python strings are embedded as `List Char`.  `str.strip()` is `pyStrip`,
`str.split(sep)` (literal, non-overlapping, left-to-right) is `pySplit`,
`str.startswith(p)` is `List.isPrefixOf`, and `line.split(":", 1)[1]` on a
line known to contain a colon is `afterFirstColon`.  The remote model is an
oracle mapping the index of the call within the run and the message text to
a response (or a raised error); a run is recorded as a trace of events
(remote calls, sleeps, and the final file write).
-/

namespace GenAI

abbrev Str := List Char

/-- Whitespace test used by Python `str.strip()`. -/
def isWS (c : Char) : Bool := c.isWhitespace

/-- Python `s.strip()`: drop whitespace from both ends. -/
def pyStrip (s : Str) : Str := List.rdropWhile isWS (List.dropWhile isWS s)

/-- Fuel-driven worker for Python `s.split(sep)`: splits on every literal,
non-overlapping, left-to-right occurrence of `sep`.  The `sep ≠ []` guard
encodes Python's precondition that the separator is non-empty (Python
raises `ValueError` on an empty separator); with fuel at least the length
of the input the fuel never runs out. -/
def pySplitF (sep : Str) : Nat → Str → List Str
  | _, [] => [[]]
  | 0, c :: rest => [c :: rest]
  | fuel + 1, c :: rest =>
    if sep.isPrefixOf (c :: rest) ∧ sep ≠ [] then
      [] :: pySplitF sep fuel (rest.drop (sep.length - 1))
    else
      match pySplitF sep fuel rest with
      | [] => [[c]]
      | h :: t => (c :: h) :: t

/-- Python `s.split(sep)` for a non-empty literal separator. -/
def pySplit (sep s : Str) : List Str := pySplitF sep s.length s

/-- Everything after the first colon of a line: Python `line.split(":", 1)[1]`
on a line that contains a colon (all call sites are guarded by a
`startswith` check whose pattern contains the colon). -/
def afterFirstColon (s : Str) : Str := (s.dropWhile (fun c => !(c == ':'))).drop 1

/-! ## Record readers (`read_reviews`, `read_emails`) -/

/-- Embeds `read_reviews` (gen_ai_task_2.py, lines 15-28): split the file content on
the delimiter, keep the stripped pieces that are non-empty after stripping. -/
def read_reviews (content delimiter : Str) : List Str :=
  ((pySplit delimiter content).filter (fun r => !(pyStrip r).isEmpty)).map pyStrip

/-- Embeds `read_emails` (geni_ai_task_1.py, lines 15-29): identical split-strip-filter
logic, used with the email delimiter. -/
def read_emails (content delimiter : Str) : List Str :=
  ((pySplit delimiter content).filter (fun e => !(pyStrip e).isEmpty)).map pyStrip

/-- Spec-side description of the record reader (spec section 4.1): split on
every literal occurrence of the delimiter, trim each piece, and keep the
ordered sequence of the pieces that are non-empty after trimming. -/
def spec_record_seq (content delimiter : Str) : List Str :=
  ((pySplit delimiter content).map pyStrip).filter (fun s => !s.isEmpty)

/-! ## Field extractors -/

/-- The loop body of `extract_review_info`: one line updates the
`(product, review_text)` state. -/
def review_line_step (acc : Str × Str) (line : Str) : Str × Str :=
  if "Product:".data.isPrefixOf line then
    (pyStrip (afterFirstColon line), acc.2)
  else if "Review:".data.isPrefixOf line then
    (acc.1, pyStrip (afterFirstColon line))
  else acc

/-- Embeds `extract_review_info` (gen_ai_task_2.py, lines 30-49): scan the lines,
"Product:" lines overwrite the product, "Review:" lines overwrite the
review text, everything else is ignored. -/
def extract_review_info (review : Str) : Str × Str :=
  (pySplit ['\n'] review).foldl review_line_step ([], [])

/-- Embeds `extract_email_info` (geni_ai_task_1.py, lines 32-54): "From:" lines
overwrite the sender, "To:" lines overwrite the receiver, every line not
starting with "Subject:", "From:" or "To:" has its stripped text appended
to the body accumulator followed by one space; the final body is the
stripped accumulator.  `email_line_step` is the loop body, acting on the
`(sender, receiver, body)` state. -/
def email_line_step (acc : Str × Str × Str) (line : Str) : Str × Str × Str :=
  if "From:".data.isPrefixOf line then
    (pyStrip (afterFirstColon line), acc.2.1, acc.2.2)
  else if "To:".data.isPrefixOf line then
    (acc.1, pyStrip (afterFirstColon line), acc.2.2)
  else if !("Subject:".data.isPrefixOf line || "From:".data.isPrefixOf line
             || "To:".data.isPrefixOf line) then
    (acc.1, acc.2.1, acc.2.2 ++ pyStrip line ++ [' '])
  else acc

def extract_email_info (email : Str) : Str × Str × Str :=
  let res := (pySplit ['\n'] email).foldl email_line_step ([], [], [])
  (res.1, res.2.1, pyStrip res.2.2)

/-- The last element of `lines` that starts with `pat`, if any ("last
matching line wins"). -/
def lastMatch (pat : Str) : List Str → Option Str
  | [] => none
  | line :: rest =>
    match lastMatch pat rest with
    | some v => some v
    | none => if pat.isPrefixOf line then some line else none

/-- Spec-side description of one prefixed field: the value taken from the
last line starting with `pat` (everything after the first colon, trimmed),
or `dflt` when no line matches. -/
def spec_field (pat : Str) (lines : List Str) (dflt : Str) : Str :=
  match lastMatch pat lines with
  | none => dflt
  | some line => pyStrip (afterFirstColon line)

/-- A line of an email record that is neither a "Subject:" nor a "From:" nor
a "To:" header, hence contributes to the body. -/
def is_body_line (line : Str) : Bool :=
  !("Subject:".data.isPrefixOf line || "From:".data.isPrefixOf line
     || "To:".data.isPrefixOf line)

/-- Spec-side description of the extracted email body: each body line is
stripped and suffixed with one space, the pieces are concatenated in input
order, and the concatenation is stripped. -/
def spec_email_body (lines : List Str) : Str :=
  pyStrip (List.flatten ((lines.filter is_body_line).map (fun l => pyStrip l ++ [' '])))

/-- Body accumulation exactly as worded in the spec's email-extractor
contract, which appends each body line unchanged (not stripped) followed by
a space and strips only the final accumulator. -/
def claimed_email_body (email : Str) : Str :=
  pyStrip ((pySplit ['\n'] email).foldl
    (fun acc line => if is_body_line line then acc ++ line ++ [' '] else acc) [])

/-! ## Sentiment normalization -/

/-- Lines 69-70 of `analyze_sentiment` (gen_ai_task_2.py): the stripped
model response is kept only when it is exactly one of the three labels,
otherwise it is replaced by "Neutral". -/
def normalize_sentiment (sentiment : Str) : Str :=
  if sentiment = "Positive".data ∨ sentiment = "Negative".data ∨ sentiment = "Neutral".data then
    sentiment
  else "Neutral".data

/-! ## Prompt templates (the f-strings sent to the model) -/

def guess_msg (review_text : Str) : Str :=
  "Guess the product name based on this review in one word: ".data ++ review_text

def sentiment_msg (review_text : Str) : Str :=
  "Classify the sentiment of this review as Positive, Negative, or Neutral: ".data ++ review_text

def reply_msg (sentiment review_text : Str) : Str :=
  "Write a reply to this review based on the sentiment: ".data ++ sentiment
    ++ ". Review: ".data ++ review_text

def summarize_msg (body : Str) : Str :=
  "Summarize the following email: ".data ++ body

def translate_msg (text : Str) : Str :=
  "Translate the following text to Telugu: ".data ++ text

/-! ## Run semantics -/

instance {ε α : Type} [DecidableEq ε] [DecidableEq α] : DecidableEq (Except ε α) := fun x y =>
  match x, y with
  | Except.error a, Except.error b =>
    if h : a = b then isTrue (by rw [h]) else isFalse (fun hc => by injection hc; contradiction)
  | Except.error _, Except.ok _ => isFalse (fun hc => by cases hc)
  | Except.ok _, Except.error _ => isFalse (fun hc => by cases hc)
  | Except.ok a, Except.ok b =>
    if h : a = b then isTrue (by rw [h]) else isFalse (fun hc => by injection hc; contradiction)

/-- The remote model: given the number of calls already made in the run and
the message text, return the raw response text or raise. -/
def Oracle : Type := Nat → Str → Except Unit Str

/-- An oracle that never raises, built from a response function. -/
def total_oracle (f : Nat → Str → Str) : Oracle := fun k m => Except.ok (f k m)

/-- Observable events of a run: a successful remote call (message and raw
response), a remote call that raised, a sleep of the given number of
seconds, and the write of the output file (header row plus data rows). -/
inductive Ev : Type
  | call : Str → Str → Ev
  | fail : Str → Ev
  | sleep : Nat → Ev
  | write : List (List Str) → Ev
deriving DecidableEq

/-- Header row written by `save_to_csv` in gen_ai_task_2.py (line 109). -/
def reviewHeader : List Str :=
  ["Original Product".data, "Guessed Product".data, "Review".data, "Sentiment".data,
   "Reply".data]

/-- Header row written by `save_to_csv` in geni_ai_task_1.py (line 103). -/
def emailHeader : List Str :=
  ["Sender".data, "Receiver".data, "Summary (EN)".data, "Summary (DE)".data]

/-- Embeds `save_to_csv` (gen_ai_task_2.py, lines 96-110): the file contents are the
header row followed by the data rows, in order. -/
def save_to_csv_reviews (data : List (List Str)) : List (List Str) :=
  reviewHeader :: data

/-- Embeds `save_to_csv` (geni_ai_task_1.py, lines 89-104). -/
def save_to_csv_emails (data : List (List Str)) : List (List Str) :=
  emailHeader :: data

/-- One iteration of the loop in `process_reviews` (gen_ai_task_2.py, lines
128-134): extract the fields, guess the product, classify the sentiment
(normalizing the stripped response), generate a reply using the normalized
sentiment, append the row, sleep 2 seconds.  An error from any remote call
propagates immediately: no row, no sleep.  `k` is the number of remote
calls made before this record. -/
def review_step (oracle : Oracle) (k : Nat) (review : Str) :
    List Ev × Except Unit (List Str × Nat) :=
  let ex := extract_review_info review
  let original_product := ex.1
  let review_text := ex.2
  match oracle k (guess_msg review_text) with
  | Except.error e => ([Ev.fail (guess_msg review_text)], Except.error e)
  | Except.ok g0 =>
    let guessed_product := pyStrip g0
    match oracle (k + 1) (sentiment_msg review_text) with
    | Except.error e =>
      ([Ev.call (guess_msg review_text) g0, Ev.fail (sentiment_msg review_text)],
       Except.error e)
    | Except.ok s0 =>
      let sentiment := normalize_sentiment (pyStrip s0)
      match oracle (k + 2) (reply_msg sentiment review_text) with
      | Except.error e =>
        ([Ev.call (guess_msg review_text) g0, Ev.call (sentiment_msg review_text) s0,
          Ev.fail (reply_msg sentiment review_text)], Except.error e)
      | Except.ok r0 =>
        let reply := pyStrip r0
        ([Ev.call (guess_msg review_text) g0, Ev.call (sentiment_msg review_text) s0,
          Ev.call (reply_msg sentiment review_text) r0, Ev.sleep 2],
         Except.ok ([original_product, guessed_product, review_text, sentiment, reply],
                    k + 3))

/-- The record loop of `process_reviews`: process the records in order,
stopping at the first error. -/
def process_reviews_loop (oracle : Oracle) : Nat → List Str →
    List Ev × Except Unit (List (List Str))
  | _, [] => ([], Except.ok [])
  | k, review :: rest =>
    match review_step oracle k review with
    | (evs, Except.error e) => (evs, Except.error e)
    | (evs, Except.ok (row, k')) =>
      match process_reviews_loop oracle k' rest with
      | (evs2, Except.error e) => (evs ++ evs2, Except.error e)
      | (evs2, Except.ok rows) => (evs ++ evs2, Except.ok (row :: rows))

/-- Embeds `process_reviews` (gen_ai_task_2.py, lines 112-136): read the records,
run the loop, and only when every record succeeded write the output file. -/
def process_reviews (oracle : Oracle) (content delimiter : Str) :
    List Ev × Except Unit (List (List Str)) :=
  match process_reviews_loop oracle 0 (read_reviews content delimiter) with
  | (evs, Except.error e) => (evs, Except.error e)
  | (evs, Except.ok rows) =>
    (evs ++ [Ev.write (save_to_csv_reviews rows)], Except.ok rows)

/-- One iteration of the loop in `process_emails` (geni_ai_task_1.py, lines
124-128): extract the fields, summarize the body, translate the summary,
append the row.  The responses are used unstripped and there is no sleep. -/
def email_step (oracle : Oracle) (k : Nat) (email : Str) :
    List Ev × Except Unit (List Str × Nat) :=
  let ex := extract_email_info email
  let sender := ex.1
  let receiver := ex.2.1
  let body := ex.2.2
  match oracle k (summarize_msg body) with
  | Except.error e => ([Ev.fail (summarize_msg body)], Except.error e)
  | Except.ok summary_en =>
    match oracle (k + 1) (translate_msg summary_en) with
    | Except.error e =>
      ([Ev.call (summarize_msg body) summary_en, Ev.fail (translate_msg summary_en)],
       Except.error e)
    | Except.ok summary_de =>
      ([Ev.call (summarize_msg body) summary_en,
        Ev.call (translate_msg summary_en) summary_de],
       Except.ok ([sender, receiver, summary_en, summary_de], k + 2))

/-- The record loop of `process_emails`. -/
def process_emails_loop (oracle : Oracle) : Nat → List Str →
    List Ev × Except Unit (List (List Str))
  | _, [] => ([], Except.ok [])
  | k, email :: rest =>
    match email_step oracle k email with
    | (evs, Except.error e) => (evs, Except.error e)
    | (evs, Except.ok (row, k')) =>
      match process_emails_loop oracle k' rest with
      | (evs2, Except.error e) => (evs ++ evs2, Except.error e)
      | (evs2, Except.ok rows) => (evs ++ evs2, Except.ok (row :: rows))

/-- Embeds `process_emails` (geni_ai_task_1.py, lines 107-130). -/
def process_emails (oracle : Oracle) (content delimiter : Str) :
    List Ev × Except Unit (List (List Str)) :=
  match process_emails_loop oracle 0 (read_emails content delimiter) with
  | (evs, Except.error e) => (evs, Except.error e)
  | (evs, Except.ok rows) =>
    (evs ++ [Ev.write (save_to_csv_emails rows)], Except.ok rows)

/-! ## Closed forms of a run under a never-failing oracle -/

/-- The output row of one review record when no call fails, with `k` calls
made before the record. -/
def review_row (f : Nat → Str → Str) (k : Nat) (review : Str) : List Str :=
  let ex := extract_review_info review
  let review_text := ex.2
  let sentiment := normalize_sentiment (pyStrip (f (k + 1) (sentiment_msg review_text)))
  [ex.1, pyStrip (f k (guess_msg review_text)), review_text, sentiment,
   pyStrip (f (k + 2) (reply_msg sentiment review_text))]

/-- The rows of the remaining review records, three calls per record. -/
def review_rows_from (f : Nat → Str → Str) : Nat → List Str → List (List Str)
  | _, [] => []
  | k, review :: rest => review_row f k review :: review_rows_from f (k + 3) rest

/-- The events of one review record when no call fails. -/
def review_rec_trace (f : Nat → Str → Str) (k : Nat) (review : Str) : List Ev :=
  let ex := extract_review_info review
  let review_text := ex.2
  let sentiment := normalize_sentiment (pyStrip (f (k + 1) (sentiment_msg review_text)))
  [Ev.call (guess_msg review_text) (f k (guess_msg review_text)),
   Ev.call (sentiment_msg review_text) (f (k + 1) (sentiment_msg review_text)),
   Ev.call (reply_msg sentiment review_text) (f (k + 2) (reply_msg sentiment review_text)),
   Ev.sleep 2]

/-- The events of the remaining review records. -/
def review_trace_from (f : Nat → Str → Str) : Nat → List Str → List Ev
  | _, [] => []
  | k, review :: rest => review_rec_trace f k review ++ review_trace_from f (k + 3) rest

/-- The output row of one email record when no call fails, with `k` calls
made before the record. -/
def email_row (f : Nat → Str → Str) (k : Nat) (email : Str) : List Str :=
  let ex := extract_email_info email
  let summary_en := f k (summarize_msg ex.2.2)
  [ex.1, ex.2.1, summary_en, f (k + 1) (translate_msg summary_en)]

/-- The rows of the remaining email records, two calls per record. -/
def email_rows_from (f : Nat → Str → Str) : Nat → List Str → List (List Str)
  | _, [] => []
  | k, email :: rest => email_row f k email :: email_rows_from f (k + 2) rest

/-- The events of one email record when no call fails. -/
def email_rec_trace (f : Nat → Str → Str) (k : Nat) (email : Str) : List Ev :=
  let ex := extract_email_info email
  let summary_en := f k (summarize_msg ex.2.2)
  [Ev.call (summarize_msg ex.2.2) summary_en,
   Ev.call (translate_msg summary_en) (f (k + 1) (translate_msg summary_en))]

/-- The events of the remaining email records. -/
def email_trace_from (f : Nat → Str → Str) : Nat → List Str → List Ev
  | _, [] => []
  | k, email :: rest => email_rec_trace f k email ++ email_trace_from f (k + 2) rest

/-- Sleep events. -/
def is_sleep : Ev → Bool
  | Ev.sleep _ => true
  | _ => false

/-! ## Library facts about contiguous occurrences -/

lemma inf_of_pre {a l : Str} (h : a <+: l) : a <:+: l := by
  obtain ⟨t, rfl⟩ := h
  exact ⟨[], t, rfl⟩

lemma inf_cons {a l : Str} {c : Char} (h : a <:+: l) : a <:+: c :: l := by
  obtain ⟨s, t, rfl⟩ := h
  exact ⟨c :: s, t, rfl⟩

lemma inf_cons_elim {a l : Str} {c : Char} (h : a <:+: c :: l) :
    a <+: c :: l ∨ a <:+: l := by
  obtain ⟨s, t, hst⟩ := h
  cases s with
  | nil => exact Or.inl ⟨t, by simpa using hst⟩
  | cons d s' =>
    simp only [List.cons_append] at hst
    injection hst with h1 h2
    exact Or.inr ⟨s', t, h2⟩

lemma not_inf_nil {a : Str} (ha : a ≠ []) : ¬ a <:+: ([] : Str) := by
  intro h
  obtain ⟨s, t, hst⟩ := h
  rcases List.append_eq_nil.mp hst with ⟨hsa, -⟩
  rcases List.append_eq_nil.mp hsa with ⟨-, ha2⟩
  exact ha ha2

lemma inf_trans {a b c : Str} (h1 : a <:+: b) (h2 : b <:+: c) : a <:+: c := by
  obtain ⟨s1, t1, rfl⟩ := h1
  obtain ⟨s2, t2, rfl⟩ := h2
  exact ⟨s2 ++ s1, t1 ++ t2, by simp [List.append_assoc]⟩

/-! ## Properties of the splitter -/

lemma pySplitF_nil (sep : Str) (fuel : Nat) : pySplitF sep fuel [] = [[]] := by
  cases fuel <;> rfl

lemma pySplitF_succ_pos {sep : Str} {c : Char} {rest : Str} (fuel : Nat)
    (hg : sep.isPrefixOf (c :: rest) = true ∧ sep ≠ []) :
    pySplitF sep (fuel + 1) (c :: rest)
      = [] :: pySplitF sep fuel (rest.drop (sep.length - 1)) := by
  simp only [pySplitF]
  rw [if_pos hg]

lemma pySplitF_succ_neg {sep : Str} {c : Char} {rest : Str} {fuel : Nat}
    {h : Str} {t : List Str}
    (hg : ¬ (sep.isPrefixOf (c :: rest) = true ∧ sep ≠ []))
    (heq : pySplitF sep fuel rest = h :: t) :
    pySplitF sep (fuel + 1) (c :: rest) = (c :: h) :: t := by
  simp only [pySplitF]
  rw [if_neg hg, heq]

/-- Every result of the splitter is non-empty and its first piece is an
initial segment of the input. -/
lemma pySplitF_shape (sep : Str) :
    ∀ (fuel : Nat) (s : Str), ∃ h t, pySplitF sep fuel s = h :: t ∧ h <+: s := by
  intro fuel
  induction fuel with
  | zero =>
    intro s
    cases s with
    | nil => exact ⟨[], [], rfl, by simp⟩
    | cons c rest => exact ⟨c :: rest, [], rfl, List.prefix_refl _⟩
  | succ n ih =>
    intro s
    cases s with
    | nil => exact ⟨[], [], rfl, by simp⟩
    | cons c rest =>
      by_cases hg : sep.isPrefixOf (c :: rest) = true ∧ sep ≠ []
      · exact ⟨[], pySplitF sep n (rest.drop (sep.length - 1)),
          pySplitF_succ_pos n hg, by simp⟩
      · obtain ⟨h, t, heq, hpre⟩ := ih rest
        exact ⟨c :: h, t, pySplitF_succ_neg hg heq,
          List.cons_prefix_cons.mpr ⟨rfl, hpre⟩⟩

/-- No piece produced by the splitter contains an occurrence of the
separator. -/
lemma pySplitF_not_inf {sep : Str} (hsep : sep ≠ []) :
    ∀ (fuel : Nat) (s : Str), s.length ≤ fuel →
      ∀ p ∈ pySplitF sep fuel s, ¬ sep <:+: p := by
  intro fuel
  induction fuel with
  | zero =>
    intro s hs p hp
    have hnil : s = [] := List.length_eq_zero.mp (Nat.le_zero.mp hs)
    subst hnil
    rw [pySplitF_nil] at hp
    simp at hp
    subst hp
    exact not_inf_nil hsep
  | succ n ih =>
    intro s hs p hp
    cases s with
    | nil =>
      rw [pySplitF_nil] at hp
      simp at hp
      subst hp
      exact not_inf_nil hsep
    | cons c rest =>
      by_cases hg : sep.isPrefixOf (c :: rest) = true ∧ sep ≠ []
      · rw [pySplitF_succ_pos n hg] at hp
        rcases List.mem_cons.mp hp with hp | hp
        · subst hp; exact not_inf_nil hsep
        · have hdl : (rest.drop (sep.length - 1)).length ≤ n := by
            have hd := List.length_drop (sep.length - 1) rest
            simp only [List.length_cons] at hs
            omega
          exact ih _ hdl p hp
      · obtain ⟨h, t, heq, hpre⟩ := pySplitF_shape sep n rest
        rw [pySplitF_succ_neg hg heq] at hp
        have hrest : rest.length ≤ n := by
          simp only [List.length_cons] at hs
          omega
        rcases List.mem_cons.mp hp with hp | hp
        · subst hp
          intro hinf
          rcases inf_cons_elim hinf with hpre2 | hinf2
          · have hspre : sep <+: c :: rest :=
              hpre2.trans (List.cons_prefix_cons.mpr ⟨rfl, hpre⟩)
            exact hg ⟨by simpa using hspre, hsep⟩
          · exact ih rest hrest h (by rw [heq]; exact List.mem_cons_self _ _) hinf2
        · exact ih rest hrest p (by rw [heq]; exact List.mem_cons_of_mem _ hp)

/-- A string with no occurrence of the separator is returned whole.  (The
hypothesis already forces `sep ≠ []`: the empty list occurs in every
string.) -/
lemma pySplitF_single {sep : Str} :
    ∀ (fuel : Nat) (s : Str), s.length ≤ fuel → ¬ sep <:+: s →
      pySplitF sep fuel s = [s] := by
  intro fuel
  induction fuel with
  | zero =>
    intro s hs _
    have hnil : s = [] := List.length_eq_zero.mp (Nat.le_zero.mp hs)
    subst hnil
    rfl
  | succ n ih =>
    intro s hs hninf
    cases s with
    | nil => rfl
    | cons c rest =>
      have hg : ¬ (sep.isPrefixOf (c :: rest) = true ∧ sep ≠ []) := by
        rintro ⟨hpre, -⟩
        exact hninf (inf_of_pre (by simpa using hpre))
      have hrest : rest.length ≤ n := by
        simp only [List.length_cons] at hs
        omega
      have hr : pySplitF sep n rest = [rest] :=
        ih rest hrest (fun hinf => hninf (inf_cons hinf))
      rw [pySplitF_succ_neg hg hr]

lemma pySplit_shape (sep s : Str) : ∃ h t, pySplit sep s = h :: t ∧ h <+: s :=
  pySplitF_shape sep s.length s

lemma pySplit_not_inf {sep : Str} (hsep : sep ≠ []) {s p : Str}
    (hp : p ∈ pySplit sep s) : ¬ sep <:+: p :=
  pySplitF_not_inf hsep s.length s (Nat.le_refl _) p hp

lemma pySplit_single {sep s : Str} (h : ¬ sep <:+: s) :
    pySplit sep s = [s] :=
  pySplitF_single s.length s (Nat.le_refl _) h

/-! ## Properties of the stripper -/

lemma dropWhile_eq_self_of_pre {p : Char → Bool} {b l : Str}
    (h : b <+: List.dropWhile p l) : List.dropWhile p b = b := by
  cases b with
  | nil => simp
  | cons c b' =>
    obtain ⟨t, hbt⟩ := h
    have hid : List.dropWhile p (List.dropWhile p l) = List.dropWhile p l := by
      apply List.dropWhile_idempotent
    rw [← hbt] at hid
    simp only [List.cons_append, List.dropWhile_cons] at hid ⊢
    by_cases hc : p c = true
    · exfalso
      rw [if_pos hc] at hid
      have hlen := congrArg List.length hid
      have hle : (List.dropWhile p (b' ++ t)).length ≤ (b' ++ t).length :=
        (List.dropWhile_sublist p).length_le
      rw [List.length_cons] at hlen
      omega
    · simp [hc]

/-- The stripped string is a contiguous segment of the original. -/
lemma pyStrip_inf (s : Str) : pyStrip s <:+: s := by
  have h1 : pyStrip s <+: List.dropWhile isWS s := by
    apply List.rdropWhile_prefix
  have h2 : List.dropWhile isWS s <:+ s := by
    apply List.dropWhile_suffix
  obtain ⟨t, ht⟩ := h1
  obtain ⟨u, hu⟩ := h2
  exact ⟨u, t, by rw [List.append_assoc, ht, hu]⟩

/-- Stripping is idempotent. -/
lemma pyStrip_idem (s : Str) : pyStrip (pyStrip s) = pyStrip s := by
  have h1 : List.dropWhile isWS (pyStrip s) = pyStrip s :=
    dropWhile_eq_self_of_pre (by apply List.rdropWhile_prefix)
  show List.rdropWhile isWS (List.dropWhile isWS (pyStrip s)) = pyStrip s
  rw [h1]
  apply List.rdropWhile_idempotent

/-! ## Properties of the record readers -/

/-- Filtering the pieces whose stripped form is non-empty and then stripping
is the same as stripping every piece and dropping the empty results. -/
lemma filter_map_strip (l : List Str) :
    (l.filter (fun r => !(pyStrip r).isEmpty)).map pyStrip
      = (l.map pyStrip).filter (fun s => !s.isEmpty) := by
  induction l with
  | nil => rfl
  | cons r rest ih =>
    by_cases h : (pyStrip r).isEmpty = true
    · simp [List.filter_cons, h, ih]
    · simp [List.filter_cons, h, ih]

lemma read_reviews_eq_spec (content d : Str) :
    read_reviews content d = spec_record_seq content d :=
  filter_map_strip _

lemma read_emails_eq_spec (content d : Str) :
    read_emails content d = spec_record_seq content d :=
  filter_map_strip _

/-- Every returned record is the stripped form of a piece of the split, and
is non-empty. -/
lemma mem_read_reviews {content d s : Str} (h : s ∈ read_reviews content d) :
    ∃ p ∈ pySplit d content, pyStrip p = s ∧ s ≠ [] := by
  unfold read_reviews at h
  rcases List.mem_map.mp h with ⟨p, hpf, rfl⟩
  rcases List.mem_filter.mp hpf with ⟨hpmem, hcond⟩
  refine ⟨p, hpmem, rfl, ?_⟩
  simpa using hcond

/-- Claim C5: for every file content and non-empty delimiter, both record
readers return exactly the ordered sequence of pieces obtained by splitting
the content on every literal occurrence of the delimiter, trimming each
piece, and dropping the pieces that are empty after trimming; moreover
every returned record is non-empty and already trimmed.  (Python's `split`
requires a non-empty separator, hence the hypothesis.) -/
theorem c5_record_reader (content d : Str) (_hd : d ≠ []) :
    read_reviews content d = spec_record_seq content d
    ∧ read_emails content d = spec_record_seq content d
    ∧ (∀ s ∈ read_reviews content d, s ≠ [] ∧ pyStrip s = s) := by
  refine ⟨read_reviews_eq_spec content d, read_emails_eq_spec content d, ?_⟩
  intro s hs
  obtain ⟨p, hpmem, hps, hne⟩ := mem_read_reviews hs
  exact ⟨hne, by rw [← hps, pyStrip_idem]⟩

theorem c5_record_reader_witness :
    ("!".data : Str) ≠ []
    ∧ read_reviews "a!b".data "!".data = spec_record_seq "a!b".data "!".data :=
  ⟨by decide, (c5_record_reader "a!b".data "!".data (by decide)).1⟩

/-- Claim C6: re-splitting a record already produced by the record reader
with the same delimiter yields exactly that one record again. -/
theorem c6_split_strip_idem (content d s : Str) (hd : d ≠ [])
    (hs : s ∈ read_reviews content d) : read_reviews s d = [s] := by
  obtain ⟨p, hpmem, hps, hne⟩ := mem_read_reviews hs
  subst hps
  have hnp : ¬ d <:+: p := pySplit_not_inf hd hpmem
  have hni : ¬ d <:+: pyStrip p := fun h => hnp (inf_trans h (pyStrip_inf p))
  unfold read_reviews
  rw [pySplit_single hni]
  simp [List.filter_cons, pyStrip_idem, hne]

theorem c6_split_strip_idem_witness :
    ("!".data : Str) ≠ []
    ∧ "a".data ∈ read_reviews "a!b".data "!".data
    ∧ read_reviews "a".data "!".data = ["a".data] :=
  ⟨by decide, by decide,
   c6_split_strip_idem "a!b".data "!".data "a".data (by decide) (by decide)⟩

/-! ## Sentiment normalization (C1) -/

/-- Claim C1: sentiment normalization is total into the three-value set
`Positive`, `Negative`, `Neutral`; it returns its input unchanged exactly
when the input is one of the three literals (case-sensitive, exact match),
and returns `"Neutral"` otherwise. -/
theorem c1_sentiment_normalization (s : Str) :
    (normalize_sentiment s = "Positive".data ∨ normalize_sentiment s = "Negative".data
       ∨ normalize_sentiment s = "Neutral".data)
    ∧ (normalize_sentiment s = s
        ↔ (s = "Positive".data ∨ s = "Negative".data ∨ s = "Neutral".data))
    ∧ ((s ≠ "Positive".data ∧ s ≠ "Negative".data ∧ s ≠ "Neutral".data) →
        normalize_sentiment s = "Neutral".data) := by
  by_cases h : s = "Positive".data ∨ s = "Negative".data ∨ s = "Neutral".data
  · have hid : normalize_sentiment s = s := by rw [normalize_sentiment, if_pos h]
    refine ⟨by rw [hid]; exact h, iff_of_true hid h, ?_⟩
    rintro ⟨h1, h2, h3⟩
    rcases h with h | h | h <;> contradiction
  · have hn : normalize_sentiment s = "Neutral".data := by
      rw [normalize_sentiment, if_neg h]
    push_neg at h
    refine ⟨Or.inr (Or.inr hn), ?_, fun _ => hn⟩
    constructor
    · intro heq
      exact absurd (heq.symm.trans hn) h.2.2
    · intro hor
      rcases hor with h' | h' | h'
      · exact absurd h' h.1
      · exact absurd h' h.2.1
      · exact absurd h' h.2.2

theorem c1_sentiment_normalization_witness :
    ("Pretty good!".data ≠ "Positive".data ∧ "Pretty good!".data ≠ "Negative".data
       ∧ "Pretty good!".data ≠ "Neutral".data)
    ∧ normalize_sentiment "Pretty good!".data = "Neutral".data :=
  ⟨by decide, (c1_sentiment_normalization "Pretty good!".data).2.2 (by decide)⟩

/-! ## Properties of the field extractors -/

lemma lastMatch_cons (pat line : Str) (rest : List Str) :
    lastMatch pat (line :: rest)
      = match lastMatch pat rest with
        | some v => some v
        | none => if pat.isPrefixOf line then some line else none := rfl

lemma lastMatch_cons_pos {pat line : Str} {rest : List Str}
    (h : pat.isPrefixOf line = true) :
    lastMatch pat (line :: rest) = some ((lastMatch pat rest).getD line) := by
  rw [lastMatch_cons]
  cases hm : lastMatch pat rest <;> simp [h]

lemma lastMatch_cons_neg {pat line : Str} {rest : List Str}
    (h : pat.isPrefixOf line = false) :
    lastMatch pat (line :: rest) = lastMatch pat rest := by
  rw [lastMatch_cons]
  cases hm : lastMatch pat rest <;> simp [h]

lemma spec_field_cons_pos {pat line dflt : Str} {rest : List Str}
    (h : pat.isPrefixOf line = true) :
    spec_field pat (line :: rest) dflt
      = spec_field pat rest (pyStrip (afterFirstColon line)) := by
  unfold spec_field
  rw [lastMatch_cons_pos h]
  cases lastMatch pat rest <;> simp

lemma spec_field_cons_neg {pat line dflt : Str} {rest : List Str}
    (h : pat.isPrefixOf line = false) :
    spec_field pat (line :: rest) dflt = spec_field pat rest dflt := by
  unfold spec_field
  rw [lastMatch_cons_neg h]

/-- Two patterns with distinct head characters cannot both start a line. -/
lemma isPre_head_ne {a b : Char} {p q l : Str} (hab : a ≠ b)
    (h : (a :: p).isPrefixOf l = true) : (b :: q).isPrefixOf l = false := by
  cases l with
  | nil => simp [List.isPrefixOf] at h
  | cons c l' =>
    simp only [List.isPrefixOf, Bool.and_eq_true, beq_iff_eq] at h
    rcases h with ⟨heq, -⟩
    subst heq
    have hba : (b == a) = false := by
      simp [beq_eq_false_iff_ne]
      exact fun hc => hab hc.symm
    simp [List.isPrefixOf, hba]

lemma product_eq_cons : "Product:".data = 'P' :: "roduct:".data := by decide

lemma review_eq_cons : "Review:".data = 'R' :: "eview:".data := by decide

lemma from_eq_cons : "From:".data = 'F' :: "rom:".data := by decide

lemma to_eq_cons : "To:".data = 'T' :: "o:".data := by decide

lemma subject_eq_cons : "Subject:".data = 'S' :: "ubject:".data := by decide

/-- The general shape of the review-extraction fold: last "Product:" line
wins for the first component, last "Review:" line wins for the second, for
any starting state. -/
lemma review_fold_eq :
    ∀ (lines : List Str) (p r : Str),
      lines.foldl review_line_step (p, r)
        = (spec_field "Product:".data lines p, spec_field "Review:".data lines r) := by
  intro lines
  induction lines with
  | nil =>
    intro p r
    simp [spec_field, lastMatch]
  | cons line rest ih =>
    intro p r
    rw [List.foldl_cons]
    by_cases hP : "Product:".data.isPrefixOf line = true
    · have hR : "Review:".data.isPrefixOf line = false := by
        rw [review_eq_cons]
        rw [product_eq_cons] at hP
        exact isPre_head_ne (by decide) hP
      rw [show review_line_step (p, r) line = (pyStrip (afterFirstColon line), r) by
            simp [review_line_step, hP],
          ih, spec_field_cons_pos hP, spec_field_cons_neg hR]
    · rw [Bool.not_eq_true] at hP
      by_cases hR : "Review:".data.isPrefixOf line = true
      · rw [show review_line_step (p, r) line = (p, pyStrip (afterFirstColon line)) by
              simp [review_line_step, hP, hR],
            ih, spec_field_cons_neg hP, spec_field_cons_pos hR]
      · rw [Bool.not_eq_true] at hR
        rw [show review_line_step (p, r) line = (p, r) by
              simp [review_line_step, hP, hR],
            ih, spec_field_cons_neg hP, spec_field_cons_neg hR]

/-- Characterization of `extract_review_info`: the product is taken from the
last "Product:" line (empty when there is none), the review text from the
last "Review:" line. -/
lemma extract_review_info_eq (review : Str) :
    extract_review_info review
      = (spec_field "Product:".data (pySplit ['\n'] review) [],
         spec_field "Review:".data (pySplit ['\n'] review) []) := by
  unfold extract_review_info
  exact review_fold_eq _ [] []

/-- The general shape of the email-extraction fold: last "From:"/"To:" line
wins, and the body accumulator collects the stripped non-header lines in
order, each followed by one space. -/
lemma email_fold_eq :
    ∀ (lines : List Str) (s r b : Str),
      lines.foldl email_line_step (s, r, b)
        = (spec_field "From:".data lines s, spec_field "To:".data lines r,
           b ++ List.flatten ((lines.filter is_body_line).map
                  (fun l => pyStrip l ++ [' ']))) := by
  intro lines
  induction lines with
  | nil =>
    intro s r b
    simp [spec_field, lastMatch]
  | cons line rest ih =>
    intro s r b
    rw [List.foldl_cons]
    by_cases hF : "From:".data.isPrefixOf line = true
    · have hT : "To:".data.isPrefixOf line = false := by
        rw [to_eq_cons]
        rw [from_eq_cons] at hF
        exact isPre_head_ne (by decide) hF
      have hB : is_body_line line = false := by
        simp [is_body_line, hF]
      rw [show email_line_step (s, r, b) line = (pyStrip (afterFirstColon line), r, b) by
            simp [email_line_step, hF],
          ih, spec_field_cons_pos hF, spec_field_cons_neg hT,
          List.filter_cons_of_neg (by simp [hB])]
    · rw [Bool.not_eq_true] at hF
      by_cases hT : "To:".data.isPrefixOf line = true
      · have hB : is_body_line line = false := by
          simp [is_body_line, hT]
        rw [show email_line_step (s, r, b) line = (s, pyStrip (afterFirstColon line), b) by
              simp [email_line_step, hF, hT],
            ih, spec_field_cons_neg hF, spec_field_cons_pos hT,
            List.filter_cons_of_neg (by simp [hB])]
      · rw [Bool.not_eq_true] at hT
        by_cases hS : "Subject:".data.isPrefixOf line = true
        · have hB : is_body_line line = false := by
            simp [is_body_line, hS]
          rw [show email_line_step (s, r, b) line = (s, r, b) by
                simp [email_line_step, hF, hT, hS],
              ih, spec_field_cons_neg hF, spec_field_cons_neg hT,
              List.filter_cons_of_neg (by simp [hB])]
        · rw [Bool.not_eq_true] at hS
          have hB : is_body_line line = true := by
            simp [is_body_line, hF, hT, hS]
          rw [show email_line_step (s, r, b) line
                = (s, r, b ++ pyStrip line ++ [' ']) by
                simp [email_line_step, hF, hT, hS],
              ih, spec_field_cons_neg hF, spec_field_cons_neg hT,
              List.filter_cons_of_pos (by simp [hB])]
          simp [List.append_assoc]

/-- Characterization of `extract_email_info`. -/
lemma extract_email_info_eq (email : Str) :
    extract_email_info email
      = (spec_field "From:".data (pySplit ['\n'] email) [],
         spec_field "To:".data (pySplit ['\n'] email) [],
         spec_email_body (pySplit ['\n'] email)) := by
  unfold extract_email_info spec_email_body
  rw [email_fold_eq _ [] [] []]
  simp

/-- Claim C3: review-field extraction takes `originalProduct` from the last
line starting with "Product:" (everything after the first colon, trimmed)
and `reviewText` from the last line starting with "Review:"; lines matching
neither are ignored, and a missing "Product:" (resp. "Review:") line leaves
the corresponding field equal to the empty string, without error. -/
theorem c3_review_extraction (review : Str) :
    extract_review_info review
      = (spec_field "Product:".data (pySplit ['\n'] review) [],
         spec_field "Review:".data (pySplit ['\n'] review) [])
    ∧ (lastMatch "Product:".data (pySplit ['\n'] review) = none →
        (extract_review_info review).1 = [])
    ∧ (lastMatch "Review:".data (pySplit ['\n'] review) = none →
        (extract_review_info review).2 = []) := by
  refine ⟨extract_review_info_eq review, ?_, ?_⟩
  · intro hnone
    rw [extract_review_info_eq review]
    simp [spec_field, hnone]
  · intro hnone
    rw [extract_review_info_eq review]
    simp [spec_field, hnone]

theorem c3_review_extraction_witness :
    lastMatch "Product:".data (pySplit ['\n'] "Review: Great fit".data) = none
    ∧ (extract_review_info "Review: Great fit".data).1 = [] :=
  ⟨by decide, (c3_review_extraction "Review: Great fit".data).2.1 (by decide)⟩

/-- Claim C4, as stated, is false on the code: the spec's contract appends
each body line unchanged to the accumulator, but the code strips every body
line before appending it.  On the record `"a \nb"` the literal contract
yields `"a  b"` (the trailing blank of the first line survives as a second
separator space) while the code yields `"a b"`. -/
theorem c4_counterexample :
    (extract_email_info "a \nb".data).2.2 ≠ claimed_email_body "a \nb".data := by
  decide

/-- Claim C4 as amended: email-field extraction takes `sender` from the last
"From:" line and `receiver` from the last "To:" line (everything after the
first colon, trimmed; last occurrence wins); every line not starting with
"Subject:", "From:" or "To:" is stripped and appended to the body
accumulator followed by one space, in the order encountered, and the final
body is the trimmed accumulator; "Subject:" lines are dropped from the
body; missing "From:"/"To:" lines leave the fields empty. -/
theorem c4_email_extraction (email : Str) :
    extract_email_info email
      = (spec_field "From:".data (pySplit ['\n'] email) [],
         spec_field "To:".data (pySplit ['\n'] email) [],
         spec_email_body (pySplit ['\n'] email))
    ∧ (lastMatch "From:".data (pySplit ['\n'] email) = none →
        (extract_email_info email).1 = [])
    ∧ (lastMatch "To:".data (pySplit ['\n'] email) = none →
        (extract_email_info email).2.1 = []) := by
  refine ⟨extract_email_info_eq email, ?_, ?_⟩
  · intro hnone
    rw [extract_email_info_eq email]
    simp [spec_field, hnone]
  · intro hnone
    rw [extract_email_info_eq email]
    simp [spec_field, hnone]

theorem c4_email_extraction_witness :
    lastMatch "From:".data (pySplit ['\n'] "Thanks for the order.".data) = none
    ∧ (extract_email_info "Thanks for the order.".data).1 = [] :=
  ⟨by decide, (c4_email_extraction "Thanks for the order.".data).2.1 (by decide)⟩

/-- Claim C10: every body line is individually stripped before being
appended: the extracted body equals the strip of the concatenation of
(strip of line + one space) over the non-header lines in order, so the
surrounding whitespace of a body line never reaches the body and blank
lines contribute only separator spaces. -/
theorem c10_body_lines_stripped (email : Str) :
    (extract_email_info email).2.2
      = pyStrip (List.flatten (((pySplit ['\n'] email).filter is_body_line).map
          (fun l => pyStrip l ++ [' ']))) := by
  rw [extract_email_info_eq email]
  rfl

/-! ## Runs under a never-failing oracle -/

lemma review_step_total (f : Nat → Str → Str) (k : Nat) (review : Str) :
    review_step (total_oracle f) k review
      = (review_rec_trace f k review, Except.ok (review_row f k review, k + 3)) := rfl

lemma email_step_total (f : Nat → Str → Str) (k : Nat) (email : Str) :
    email_step (total_oracle f) k email
      = (email_rec_trace f k email, Except.ok (email_row f k email, k + 2)) := rfl

lemma process_reviews_loop_total (f : Nat → Str → Str) :
    ∀ (segs : List Str) (k : Nat),
      process_reviews_loop (total_oracle f) k segs
        = (review_trace_from f k segs, Except.ok (review_rows_from f k segs)) := by
  intro segs
  induction segs with
  | nil => intro k; rfl
  | cons seg rest ih =>
    intro k
    simp only [process_reviews_loop, review_step_total, ih, review_trace_from,
      review_rows_from]

lemma process_emails_loop_total (f : Nat → Str → Str) :
    ∀ (segs : List Str) (k : Nat),
      process_emails_loop (total_oracle f) k segs
        = (email_trace_from f k segs, Except.ok (email_rows_from f k segs)) := by
  intro segs
  induction segs with
  | nil => intro k; rfl
  | cons seg rest ih =>
    intro k
    simp only [process_emails_loop, email_step_total, ih, email_trace_from,
      email_rows_from]

lemma process_reviews_total (f : Nat → Str → Str) (content d : Str) :
    process_reviews (total_oracle f) content d
      = (review_trace_from f 0 (read_reviews content d)
           ++ [Ev.write (save_to_csv_reviews
                 (review_rows_from f 0 (read_reviews content d)))],
         Except.ok (review_rows_from f 0 (read_reviews content d))) := by
  unfold process_reviews
  rw [process_reviews_loop_total]

lemma process_emails_total (f : Nat → Str → Str) (content d : Str) :
    process_emails (total_oracle f) content d
      = (email_trace_from f 0 (read_emails content d)
           ++ [Ev.write (save_to_csv_emails
                 (email_rows_from f 0 (read_emails content d)))],
         Except.ok (email_rows_from f 0 (read_emails content d))) := by
  unfold process_emails
  rw [process_emails_loop_total]

lemma review_rows_from_length (f : Nat → Str → Str) :
    ∀ (segs : List Str) (k : Nat),
      (review_rows_from f k segs).length = segs.length := by
  intro segs
  induction segs with
  | nil => intro k; rfl
  | cons seg rest ih => intro k; simp [review_rows_from, ih]

lemma email_rows_from_length (f : Nat → Str → Str) :
    ∀ (segs : List Str) (k : Nat),
      (email_rows_from f k segs).length = segs.length := by
  intro segs
  induction segs with
  | nil => intro k; rfl
  | cons seg rest ih => intro k; simp [email_rows_from, ih]

lemma review_rows_from_get (f : Nat → Str → Str) :
    ∀ (segs : List Str) (k i : Nat) (hi : i < segs.length)
      (hr : i < (review_rows_from f k segs).length),
      (review_rows_from f k segs).get ⟨i, hr⟩
        = review_row f (k + 3 * i) (segs.get ⟨i, hi⟩) := by
  intro segs
  induction segs with
  | nil => intro k i hi hr; simp at hi
  | cons seg rest ih =>
    intro k i hi hr
    cases i with
    | zero => simp [review_rows_from]
    | succ j =>
      have hj : j < rest.length := by simpa using hi
      have hr' : j < (review_rows_from f (k + 3) rest).length := by
        rw [review_rows_from_length]; exact hj
      have hstep : (review_rows_from f k (seg :: rest)).get ⟨j + 1, hr⟩
          = (review_rows_from f (k + 3) rest).get ⟨j, hr'⟩ := rfl
      rw [hstep, ih (k + 3) j hj hr']
      have harith : k + 3 + 3 * j = k + 3 * (j + 1) := by omega
      rw [harith]
      rfl

lemma email_rows_from_get (f : Nat → Str → Str) :
    ∀ (segs : List Str) (k i : Nat) (hi : i < segs.length)
      (hr : i < (email_rows_from f k segs).length),
      (email_rows_from f k segs).get ⟨i, hr⟩
        = email_row f (k + 2 * i) (segs.get ⟨i, hi⟩) := by
  intro segs
  induction segs with
  | nil => intro k i hi hr; simp at hi
  | cons seg rest ih =>
    intro k i hi hr
    cases i with
    | zero => simp [email_rows_from]
    | succ j =>
      have hj : j < rest.length := by simpa using hi
      have hr' : j < (email_rows_from f (k + 2) rest).length := by
        rw [email_rows_from_length]; exact hj
      have hstep : (email_rows_from f k (seg :: rest)).get ⟨j + 1, hr⟩
          = (email_rows_from f (k + 2) rest).get ⟨j, hr'⟩ := rfl
      rw [hstep, ih (k + 2) j hj hr']
      have harith : k + 2 + 2 * j = k + 2 * (j + 1) := by omega
      rw [harith]
      rfl

/-- Claim C2: under a never-failing model, in both pipelines the run
produces exactly one output row per record of the reader (in particular the
row count equals the record count), row `i` is computed from record `i`
(order preserved, no reordering, no deduplication), and with zero records
the written file consists of the header row alone. -/
theorem c2_one_row_per_record (f : Nat → Str → Str) (content d : Str) :
    ((process_reviews (total_oracle f) content d).2
        = Except.ok (review_rows_from f 0 (read_reviews content d)))
    ∧ (review_rows_from f 0 (read_reviews content d)).length
        = (read_reviews content d).length
    ∧ (∀ (i : Nat) (hi : i < (read_reviews content d).length)
          (hr : i < (review_rows_from f 0 (read_reviews content d)).length),
        (review_rows_from f 0 (read_reviews content d)).get ⟨i, hr⟩
          = review_row f (3 * i) ((read_reviews content d).get ⟨i, hi⟩))
    ∧ (read_reviews content d = [] →
        (process_reviews (total_oracle f) content d).1 = [Ev.write [reviewHeader]])
    ∧ ((process_emails (total_oracle f) content d).2
        = Except.ok (email_rows_from f 0 (read_emails content d)))
    ∧ (email_rows_from f 0 (read_emails content d)).length
        = (read_emails content d).length
    ∧ (∀ (i : Nat) (hi : i < (read_emails content d).length)
          (hr : i < (email_rows_from f 0 (read_emails content d)).length),
        (email_rows_from f 0 (read_emails content d)).get ⟨i, hr⟩
          = email_row f (2 * i) ((read_emails content d).get ⟨i, hi⟩))
    ∧ (read_emails content d = [] →
        (process_emails (total_oracle f) content d).1 = [Ev.write [emailHeader]]) := by
  refine ⟨by rw [process_reviews_total], review_rows_from_length f _ 0, ?_, ?_,
          by rw [process_emails_total], email_rows_from_length f _ 0, ?_, ?_⟩
  · intro i hi hr
    have h := review_rows_from_get f (read_reviews content d) 0 i hi hr
    simpa using h
  · intro hempty
    rw [process_reviews_total, hempty]
    rfl
  · intro i hi hr
    have h := email_rows_from_get f (read_emails content d) 0 i hi hr
    simpa using h
  · intro hempty
    rw [process_emails_total, hempty]
    rfl

theorem c2_one_row_per_record_witness :
    read_reviews ([] : Str) "d".data = []
    ∧ (process_reviews (total_oracle (fun _ _ => [])) [] "d".data).1
        = [Ev.write [reviewHeader]] :=
  ⟨by decide,
   (c2_one_row_per_record (fun _ _ => []) [] "d".data).2.2.2.1 (by decide)⟩

/-! ## Error propagation (C7) -/

lemma review_step_no_write (oracle : Oracle) (k : Nat) (review : Str) :
    ∀ file, Ev.write file ∉ (review_step oracle k review).1 := by
  intro file
  simp only [review_step]
  split
  · simp
  · split
    · simp
    · split
      · simp
      · simp

lemma email_step_no_write (oracle : Oracle) (k : Nat) (email : Str) :
    ∀ file, Ev.write file ∉ (email_step oracle k email).1 := by
  intro file
  simp only [email_step]
  split
  · simp
  · split
    · simp
    · simp

lemma process_reviews_loop_no_write (oracle : Oracle) :
    ∀ (segs : List Str) (k : Nat) (file : List (List Str)),
      Ev.write file ∉ (process_reviews_loop oracle k segs).1 := by
  intro segs
  induction segs with
  | nil => intro k file; simp [process_reviews_loop]
  | cons seg rest ih =>
    intro k file
    have hstep := review_step_no_write oracle k seg file
    simp only [process_reviews_loop]
    split
    · next evs e heq => rw [heq] at hstep; exact hstep
    · next evs row k' heq =>
      rw [heq] at hstep
      split
      · next evs2 e2 heq2 =>
        have h2 := ih k' file
        rw [heq2] at h2
        simp only [List.mem_append]
        rintro (h | h)
        · exact hstep h
        · exact h2 h
      · next evs2 rows2 heq2 =>
        have h2 := ih k' file
        rw [heq2] at h2
        simp only [List.mem_append]
        rintro (h | h)
        · exact hstep h
        · exact h2 h

lemma process_emails_loop_no_write (oracle : Oracle) :
    ∀ (segs : List Str) (k : Nat) (file : List (List Str)),
      Ev.write file ∉ (process_emails_loop oracle k segs).1 := by
  intro segs
  induction segs with
  | nil => intro k file; simp [process_emails_loop]
  | cons seg rest ih =>
    intro k file
    have hstep := email_step_no_write oracle k seg file
    simp only [process_emails_loop]
    split
    · next evs e heq => rw [heq] at hstep; exact hstep
    · next evs row k' heq =>
      rw [heq] at hstep
      split
      · next evs2 e2 heq2 =>
        have h2 := ih k' file
        rw [heq2] at h2
        simp only [List.mem_append]
        rintro (h | h)
        · exact hstep h
        · exact h2 h
      · next evs2 rows2 heq2 =>
        have h2 := ih k' file
        rw [heq2] at h2
        simp only [List.mem_append]
        rintro (h | h)
        · exact hstep h
        · exact h2 h

lemma process_reviews_loop_ok_length (oracle : Oracle) :
    ∀ (segs : List Str) (k : Nat) (evs : List Ev) (rows : List (List Str)),
      process_reviews_loop oracle k segs = (evs, Except.ok rows) →
      rows.length = segs.length := by
  intro segs
  induction segs with
  | nil =>
    intro k evs rows h
    simp only [process_reviews_loop, Prod.mk.injEq] at h
    rw [← (Except.ok.inj h.2)]
    rfl
  | cons seg rest ih =>
    intro k evs rows h
    simp only [process_reviews_loop] at h
    rcases hs : review_step oracle k seg with ⟨evs1, res1⟩
    rw [hs] at h
    cases res1 with
    | error e => simp at h
    | ok rk =>
      rcases rk with ⟨row, k'⟩
      dsimp only at h
      rcases hl : process_reviews_loop oracle k' rest with ⟨evs2, res2⟩
      rw [hl] at h
      cases res2 with
      | error e => simp at h
      | ok rows2 =>
        simp only [Prod.mk.injEq] at h
        rw [← (Except.ok.inj h.2)]
        simp [ih k' evs2 rows2 hl]

lemma process_emails_loop_ok_length (oracle : Oracle) :
    ∀ (segs : List Str) (k : Nat) (evs : List Ev) (rows : List (List Str)),
      process_emails_loop oracle k segs = (evs, Except.ok rows) →
      rows.length = segs.length := by
  intro segs
  induction segs with
  | nil =>
    intro k evs rows h
    simp only [process_emails_loop, Prod.mk.injEq] at h
    rw [← (Except.ok.inj h.2)]
    rfl
  | cons seg rest ih =>
    intro k evs rows h
    simp only [process_emails_loop] at h
    rcases hs : email_step oracle k seg with ⟨evs1, res1⟩
    rw [hs] at h
    cases res1 with
    | error e => simp at h
    | ok rk =>
      rcases rk with ⟨row, k'⟩
      dsimp only at h
      rcases hl : process_emails_loop oracle k' rest with ⟨evs2, res2⟩
      rw [hl] at h
      cases res2 with
      | error e => simp at h
      | ok rows2 =>
        simp only [Prod.mk.injEq] at h
        rw [← (Except.ok.inj h.2)]
        simp [ih k' evs2 rows2 hl]

/-- Error/success behaviour of the full review run: an error leaves no write
event in the trace; success writes the complete file once, as the very last
event, with one row per record. -/
lemma process_reviews_write_spec (oracle : Oracle) (content d : Str) :
    (∀ e, (process_reviews oracle content d).2 = Except.error e →
        ∀ file, Ev.write file ∉ (process_reviews oracle content d).1)
    ∧ (∀ rows, (process_reviews oracle content d).2 = Except.ok rows →
        rows.length = (read_reviews content d).length
        ∧ ∃ pre, (process_reviews oracle content d).1
              = pre ++ [Ev.write (save_to_csv_reviews rows)]
            ∧ ∀ file, Ev.write file ∉ pre) := by
  rcases hloop : process_reviews_loop oracle 0 (read_reviews content d) with ⟨evs, res⟩
  have hnw := process_reviews_loop_no_write oracle (read_reviews content d) 0
  rw [hloop] at hnw
  cases res with
  | error e0 =>
    have hpr : process_reviews oracle content d = (evs, Except.error e0) := by
      unfold process_reviews
      rw [hloop]
    constructor
    · intro e he file
      rw [hpr]
      exact hnw file
    · intro rows hrows
      rw [hpr] at hrows
      simp at hrows
  | ok rows0 =>
    have hpr : process_reviews oracle content d
        = (evs ++ [Ev.write (save_to_csv_reviews rows0)], Except.ok rows0) := by
      unfold process_reviews
      rw [hloop]
    constructor
    · intro e he file
      rw [hpr] at he
      simp at he
    · intro rows hrows
      rw [hpr] at hrows
      have hre : rows0 = rows := Except.ok.inj hrows
      subst hre
      refine ⟨process_reviews_loop_ok_length oracle _ 0 evs rows0 hloop, evs, ?_, hnw⟩
      rw [hpr]

/-- Error/success behaviour of the full email run. -/
lemma process_emails_write_spec (oracle : Oracle) (content d : Str) :
    (∀ e, (process_emails oracle content d).2 = Except.error e →
        ∀ file, Ev.write file ∉ (process_emails oracle content d).1)
    ∧ (∀ rows, (process_emails oracle content d).2 = Except.ok rows →
        rows.length = (read_emails content d).length
        ∧ ∃ pre, (process_emails oracle content d).1
              = pre ++ [Ev.write (save_to_csv_emails rows)]
            ∧ ∀ file, Ev.write file ∉ pre) := by
  rcases hloop : process_emails_loop oracle 0 (read_emails content d) with ⟨evs, res⟩
  have hnw := process_emails_loop_no_write oracle (read_emails content d) 0
  rw [hloop] at hnw
  cases res with
  | error e0 =>
    have hpr : process_emails oracle content d = (evs, Except.error e0) := by
      unfold process_emails
      rw [hloop]
    constructor
    · intro e he file
      rw [hpr]
      exact hnw file
    · intro rows hrows
      rw [hpr] at hrows
      simp at hrows
  | ok rows0 =>
    have hpr : process_emails oracle content d
        = (evs ++ [Ev.write (save_to_csv_emails rows0)], Except.ok rows0) := by
      unfold process_emails
      rw [hloop]
    constructor
    · intro e he file
      rw [hpr] at he
      simp at he
    · intro rows hrows
      rw [hpr] at hrows
      have hre : rows0 = rows := Except.ok.inj hrows
      subst hre
      refine ⟨process_emails_loop_ok_length oracle _ 0 evs rows0 hloop, evs, ?_, hnw⟩
      rw [hpr]

/-- Claim C7: in both pipelines, if any remote call raises while processing
any record the run aborts with no write event in its trace (no output file,
no partial rows); the output file is written only when every record has
been processed successfully, and then exactly once, as the last event, with
the complete set of rows. -/
theorem c7_abort_before_write (oracle : Oracle) (content d : Str) :
    (∀ e, (process_reviews oracle content d).2 = Except.error e →
        ∀ file, Ev.write file ∉ (process_reviews oracle content d).1)
    ∧ (∀ rows, (process_reviews oracle content d).2 = Except.ok rows →
        rows.length = (read_reviews content d).length
        ∧ ∃ pre, (process_reviews oracle content d).1
              = pre ++ [Ev.write (save_to_csv_reviews rows)]
            ∧ ∀ file, Ev.write file ∉ pre)
    ∧ (∀ e, (process_emails oracle content d).2 = Except.error e →
        ∀ file, Ev.write file ∉ (process_emails oracle content d).1)
    ∧ (∀ rows, (process_emails oracle content d).2 = Except.ok rows →
        rows.length = (read_emails content d).length
        ∧ ∃ pre, (process_emails oracle content d).1
              = pre ++ [Ev.write (save_to_csv_emails rows)]
            ∧ ∀ file, Ev.write file ∉ pre) :=
  ⟨(process_reviews_write_spec oracle content d).1,
   (process_reviews_write_spec oracle content d).2,
   (process_emails_write_spec oracle content d).1,
   (process_emails_write_spec oracle content d).2⟩

theorem c7_abort_before_write_witness :
    ((process_reviews (fun _ _ => Except.error ()) "a!b".data "!".data).2
        = Except.error ())
    ∧ Ev.write [reviewHeader]
        ∉ (process_reviews (fun _ _ => Except.error ()) "a!b".data "!".data).1 :=
  ⟨by decide,
   (c7_abort_before_write (fun _ _ => Except.error ()) "a!b".data "!".data).1 ()
     (by decide) [reviewHeader]⟩

/-! ## Sleep events (C8) -/

lemma review_rec_trace_filter_sleep (f : Nat → Str → Str) (k : Nat) (review : Str) :
    (review_rec_trace f k review).filter is_sleep = [Ev.sleep 2] := by
  simp [review_rec_trace, is_sleep]

lemma review_trace_from_sleep_count (f : Nat → Str → Str) :
    ∀ (segs : List Str) (k : Nat),
      ((review_trace_from f k segs).filter is_sleep).length = segs.length := by
  intro segs
  induction segs with
  | nil => intro k; rfl
  | cons seg rest ih =>
    intro k
    simp [review_trace_from, List.filter_append, review_rec_trace_filter_sleep, ih]

lemma review_trace_from_sleep_two (f : Nat → Str → Str) :
    ∀ (segs : List Str) (k : Nat) (ev : Ev), ev ∈ review_trace_from f k segs →
      is_sleep ev = true → ev = Ev.sleep 2 := by
  intro segs
  induction segs with
  | nil => intro k ev h; simp [review_trace_from] at h
  | cons seg rest ih =>
    intro k ev h hs
    simp only [review_trace_from, List.mem_append] at h
    rcases h with h | h
    · simp [review_rec_trace] at h
      rcases h with h | h | h | h <;> subst h
      · simp [is_sleep] at hs
      · simp [is_sleep] at hs
      · simp [is_sleep] at hs
      · rfl
    · exact ih (k + 3) ev h hs

lemma email_trace_from_no_sleep (f : Nat → Str → Str) :
    ∀ (segs : List Str) (k n : Nat), Ev.sleep n ∉ email_trace_from f k segs := by
  intro segs
  induction segs with
  | nil => intro k n h; simp [email_trace_from] at h
  | cons seg rest ih =>
    intro k n h
    simp only [email_trace_from, List.mem_append] at h
    rcases h with h | h
    · simp [email_rec_trace] at h
    · exact ih (k + 2) n h

/-- Claim C8, as stated, is false on the code: the sleep happens inside the
loop body after every record, including the last one, so one record already
produces one pause where the claim predicts zero inter-record pauses. -/
theorem c8_counterexample :
    (read_reviews "x".data "---END OF REVIEW---".data).length = 1
    ∧ ((process_reviews (total_oracle (fun _ _ => "ok".data)) "x".data
          "---END OF REVIEW---".data).1.filter is_sleep).length ≠ 1 - 1 :=
  ⟨by decide, by decide⟩

/-- Claim C8 as amended: the review orchestrator performs an unconditional
2-time-unit pause after emitting each record's row, for every record
including the last (n records yield n pauses, every pause lasting exactly 2
units, all before the file write); the email pipeline performs no pause at
all. -/
theorem c8_pause_after_every_record (f : Nat → Str → Str) (content d : Str) :
    (process_reviews (total_oracle f) content d).1
      = review_trace_from f 0 (read_reviews content d)
        ++ [Ev.write (save_to_csv_reviews
              (review_rows_from f 0 (read_reviews content d)))]
    ∧ ((process_reviews (total_oracle f) content d).1.filter is_sleep).length
        = (read_reviews content d).length
    ∧ (∀ ev ∈ (process_reviews (total_oracle f) content d).1,
        is_sleep ev = true → ev = Ev.sleep 2)
    ∧ (∀ n, Ev.sleep n ∉ (process_emails (total_oracle f) content d).1) := by
  have htr : (process_reviews (total_oracle f) content d).1
      = review_trace_from f 0 (read_reviews content d)
        ++ [Ev.write (save_to_csv_reviews
              (review_rows_from f 0 (read_reviews content d)))] := by
    rw [process_reviews_total]
  have hte : (process_emails (total_oracle f) content d).1
      = email_trace_from f 0 (read_emails content d)
        ++ [Ev.write (save_to_csv_emails
              (email_rows_from f 0 (read_emails content d)))] := by
    rw [process_emails_total]
  refine ⟨htr, ?_, ?_, ?_⟩
  · rw [htr, List.filter_append]
    simp [review_trace_from_sleep_count f (read_reviews content d) 0, is_sleep]
  · intro ev hev hs
    rw [htr] at hev
    rcases List.mem_append.mp hev with h | h
    · exact review_trace_from_sleep_two f (read_reviews content d) 0 ev h hs
    · simp at h
      subst h
      simp [is_sleep] at hs
  · intro n
    rw [hte]
    simp only [List.mem_append]
    rintro (h | h)
    · exact email_trace_from_no_sleep f (read_emails content d) 0 n h
    · simp at h

theorem c8_pause_after_every_record_witness :
    (Ev.sleep 2 ∈ (process_reviews (total_oracle (fun _ _ => "ok".data)) "x".data
        "---END OF REVIEW---".data).1)
    ∧ is_sleep (Ev.sleep 2) = true
    ∧ Ev.sleep 2 = Ev.sleep 2 :=
  ⟨by decide, by decide,
   (c8_pause_after_every_record (fun _ _ => "ok".data) "x".data
      "---END OF REVIEW---".data).2.2.1 (Ev.sleep 2) (by decide) (by decide)⟩

/-! ## The translation target language (C9) -/

lemma email_trace_from_calls (f : Nat → Str → Str) :
    ∀ (segs : List Str) (k : Nat) (ev : Ev), ev ∈ email_trace_from f k segs →
      ∀ m r, ev = Ev.call m r →
        (∃ b, m = summarize_msg b) ∨ (∃ t, m = translate_msg t) := by
  intro segs
  induction segs with
  | nil => intro k ev h; simp [email_trace_from] at h
  | cons seg rest ih =>
    intro k ev h m r heq
    subst heq
    simp only [email_trace_from, List.mem_append] at h
    rcases h with h | h
    · simp [email_rec_trace] at h
      rcases h with ⟨hm, -⟩ | ⟨hm, -⟩
      · exact Or.inl ⟨_, hm⟩
      · exact Or.inr ⟨_, hm⟩
    · exact ih (k + 2) (Ev.call m r) h m r rfl

lemma email_trace_translate_mem (f : Nat → Str → Str) :
    ∀ (segs : List Str) (k i : Nat) (hi : i < segs.length),
      Ev.call
          (translate_msg (f (k + 2 * i)
            (summarize_msg (extract_email_info (segs.get ⟨i, hi⟩)).2.2)))
          (f (k + 2 * i + 1)
            (translate_msg (f (k + 2 * i)
              (summarize_msg (extract_email_info (segs.get ⟨i, hi⟩)).2.2))))
        ∈ email_trace_from f k segs := by
  intro segs
  induction segs with
  | nil => intro k i hi; simp at hi
  | cons seg rest ih =>
    intro k i hi
    cases i with
    | zero =>
      have h0 : k + 2 * 0 = k := by omega
      rw [h0]
      have hget : (seg :: rest).get ⟨0, hi⟩ = seg := rfl
      rw [hget]
      simp only [email_trace_from, List.mem_append]
      left
      simp [email_rec_trace]
    | succ j =>
      have hj : j < rest.length := by simpa using hi
      have harith : k + 2 * (j + 1) = k + 2 + 2 * j := by omega
      rw [harith]
      have hget : (seg :: rest).get ⟨j + 1, hi⟩ = rest.get ⟨j, hj⟩ := rfl
      rw [hget]
      simp only [email_trace_from, List.mem_append]
      right
      exact ih (k + 2) j hj

/-- Claim C9: the email pipeline's translation target language is fixed to
Telugu: every remote call of an email run is either a summarize call or a
call whose message is exactly the Telugu translation instruction followed
by the text, each record contributes such a Telugu translation call on its
summary, and yet the header of the translated-summary column of the output
table is labeled "Summary (DE)". -/
theorem c9_translation_language_telugu (f : Nat → Str → Str) (content d : Str) :
    (∀ ev ∈ (process_emails (total_oracle f) content d).1, ∀ m r, ev = Ev.call m r →
        (∃ b, m = summarize_msg b)
        ∨ (∃ t, m = "Translate the following text to Telugu: ".data ++ t))
    ∧ (∀ (i : Nat) (hi : i < (read_emails content d).length),
        Ev.call
            (translate_msg (f (2 * i)
              (summarize_msg (extract_email_info
                ((read_emails content d).get ⟨i, hi⟩)).2.2)))
            (f (2 * i + 1)
              (translate_msg (f (2 * i)
                (summarize_msg (extract_email_info
                  ((read_emails content d).get ⟨i, hi⟩)).2.2))))
          ∈ (process_emails (total_oracle f) content d).1)
    ∧ translate_msg = (fun t => "Translate the following text to Telugu: ".data ++ t)
    ∧ emailHeader.getD 3 [] = "Summary (DE)".data := by
  have hte : (process_emails (total_oracle f) content d).1
      = email_trace_from f 0 (read_emails content d)
        ++ [Ev.write (save_to_csv_emails
              (email_rows_from f 0 (read_emails content d)))] := by
    rw [process_emails_total]
  refine ⟨?_, ?_, rfl, rfl⟩
  · intro ev hev m r heq
    rw [hte] at hev
    rcases List.mem_append.mp hev with h | h
    · rcases email_trace_from_calls f (read_emails content d) 0 ev h m r heq
        with h2 | h2
      · exact Or.inl h2
      · exact Or.inr (by simpa [translate_msg] using h2)
    · subst heq
      simp at h
  · intro i hi
    rw [hte]
    apply List.mem_append_left
    have h := email_trace_translate_mem f (read_emails content d) 0 i hi
    simpa using h

theorem c9_translation_language_telugu_witness :
    (Ev.call (summarize_msg "x".data) "s".data
        ∈ (process_emails (total_oracle (fun _ _ => "s".data)) "x".data
            "---END OF EMAIL---".data).1)
    ∧ ((∃ b, summarize_msg "x".data = summarize_msg b)
        ∨ (∃ t, summarize_msg "x".data
            = "Translate the following text to Telugu: ".data ++ t)) :=
  ⟨by decide,
   (c9_translation_language_telugu (fun _ _ => "s".data) "x".data
      "---END OF EMAIL---".data).1
     (Ev.call (summarize_msg "x".data) "s".data) (by decide)
     (summarize_msg "x".data) "s".data rfl⟩

end GenAI
